import Mathlib

/-!
Verification of the record-building core of the putrecord repository.

The embedded code:
* `jsonParse` — the host language's JSON.parse as used by `buildRecord`
  (returning an `Option` instead of throwing, mirroring the try/catch).
* `extractMarkdownTitle` — src/lib, the first-heading extraction performed
  with the multiline regular expression matching a hash, whitespace, and a
  captured remainder of a line.
* `buildRecord` — the four-argument library version (JSON pass-through,
  special case for the com.whtwnd.blog.entry collection, generic fallback).
* `Script.buildRecord` — the two-argument version of the minimal script
  (JSON pass-through and generic fallback only).

The clock read `new Date().toISOString()` is modelled by an explicit `now`
argument holding the ISO string.
-/

/-- JSON values as produced by the host JSON.parse. Numbers are kept exactly
as mantissa times a power of ten; floating-point rounding is not modelled
(no property below depends on numeric rounding). -/
inductive Json where
  | null : Json
  | bool : Bool → Json
  | num : Int → Int → Json
  | str : String → Json
  | arr : List Json → Json
  | obj : List (String × Json) → Json

/-- Whitespace accepted between JSON tokens (space, tab, line feed,
carriage return). -/
def isJsonWs (c : Char) : Bool :=
  c = ' ' || c = '\t' || c = '\n' || c = Char.ofNat 13

def skipWs (l : List Char) : List Char := l.dropWhile isJsonWs

def isDigitChar (c : Char) : Bool := 48 ≤ c.toNat && c.toNat ≤ 57

/-- Value of one hexadecimal digit, by code point: decimal digits, then the
lowercase and the uppercase letter ranges. -/
def hexDigitVal (c : Char) : Option Nat :=
  let n := c.toNat
  if 48 ≤ n && n ≤ 57 then some (n - 48)
  else if 97 ≤ n && n ≤ 102 then some (n - 87)
  else if 65 ≤ n && n ≤ 70 then some (n - 55)
  else none

def parseHex4 : List Char → Option (Nat × List Char)
  | a :: b :: c :: d :: rest =>
    match hexDigitVal a, hexDigitVal b, hexDigitVal c, hexDigitVal d with
    | some x, some y, some z, some w => some (4096 * x + 256 * y + 16 * z + w, rest)
    | _, _, _, _ => none
  | _ => none

/-- Body of a JSON string after the opening quote, producing the decoded
characters and the input remaining after the closing quote. Surrogate pairs
in unicode escapes are combined; a lone surrogate (not representable as a
scalar value) becomes the replacement character, an unobservable deviation
for the properties below. -/
def parseStringRest : Nat → List Char → Option (List Char × List Char)
  | 0, _ => none
  | _ + 1, [] => none
  | fuel + 1, c :: rest =>
    let cont (ch : Char) (rem : List Char) : Option (List Char × List Char) :=
      match parseStringRest fuel rem with
      | some (cs, rem2) => some (ch :: cs, rem2)
      | none => none
    if c = '"' then some ([], rest)
    else if c = '\\' then
      match rest with
      | [] => none
      | e :: rest2 =>
        if e = '"' then cont '"' rest2
        else if e = '\\' then cont '\\' rest2
        else if e = '/' then cont '/' rest2
        else if e = 'b' then cont (Char.ofNat 8) rest2
        else if e = 'f' then cont (Char.ofNat 12) rest2
        else if e = 'n' then cont '\n' rest2
        else if e = 'r' then cont (Char.ofNat 13) rest2
        else if e = 't' then cont '\t' rest2
        else if e = 'u' then
          match parseHex4 rest2 with
          | none => none
          | some (n, rest3) =>
            if 0xd800 ≤ n && n ≤ 0xdbff then
              match rest3 with
              | '\\' :: 'u' :: rest4 =>
                match parseHex4 rest4 with
                | some (m, rest5) =>
                  if 0xdc00 ≤ m && m ≤ 0xdfff then
                    cont (Char.ofNat (0x10000 + (n - 0xd800) * 0x400 + (m - 0xdc00))) rest5
                  else cont (Char.ofNat 0xfffd) rest3
                | none => cont (Char.ofNat 0xfffd) rest3
              | _ => cont (Char.ofNat 0xfffd) rest3
            else if 0xdc00 ≤ n && n ≤ 0xdfff then cont (Char.ofNat 0xfffd) rest3
            else cont (Char.ofNat n) rest3
        else none
    else if c.toNat < 0x20 then none
    else cont c rest

def digitsToNat (ds : List Char) : Nat :=
  ds.foldl (fun acc d => 10 * acc + (d.toNat - 48)) 0

/-- A JSON number: optional minus, integer part without leading zeros,
optional fraction, optional exponent. -/
def parseNumber (l : List Char) : Option (Json × List Char) :=
  let signSplit : Bool × List Char :=
    match l with
    | '-' :: rest => (true, rest)
    | _ => (false, l)
  let neg := signSplit.1
  let l1 := signSplit.2
  let intPart : Option (List Char × List Char) :=
    match l1 with
    | '0' :: rest => some ([ '0' ], rest)
    | c :: rest =>
      if isDigitChar c then some (c :: rest.takeWhile isDigitChar, rest.dropWhile isDigitChar)
      else none
    | [] => none
  match intPart with
  | none => none
  | some (ids, l2) =>
    let fracPart : Option (List Char × List Char) :=
      match l2 with
      | '.' :: rest =>
        let ds := rest.takeWhile isDigitChar
        if ds.isEmpty then none else some (ds, rest.dropWhile isDigitChar)
      | _ => some ([], l2)
    match fracPart with
    | none => none
    | some (fds, l3) =>
      let expPart : Option (Int × List Char) :=
        match l3 with
        | c :: rest =>
          if c = 'e' || c = 'E' then
            let esplit : Bool × List Char :=
              match rest with
              | '+' :: tl => (false, tl)
              | '-' :: tl => (true, tl)
              | _ => (false, rest)
            let ds := esplit.2.takeWhile isDigitChar
            if ds.isEmpty then none
            else
              let e : Int := Int.ofNat (digitsToNat ds)
              some (if esplit.1 then -e else e, esplit.2.dropWhile isDigitChar)
          else some (0, l3)
        | [] => some (0, l3)
      match expPart with
      | none => none
      | some (e, l4) =>
        let m : Int := Int.ofNat (digitsToNat (ids ++ fds))
        some (Json.num (if neg then -m else m) (e - Int.ofNat fds.length), l4)

/-- Property assignment semantics of the host object: a duplicate key keeps
its first position and takes the later value. -/
def setField : List (String × Json) → String → Json → List (String × Json)
  | [], k, v => [(k, v)]
  | (k', v') :: rest, k, v =>
    if k' = k then (k', v) :: rest else (k', v') :: setField rest k v

mutual

/-- One JSON value starting at the head of the input (leading whitespace
already skipped). The fuel only bounds recursion depth; the top-level entry
point supplies more than any input can consume. -/
def parseValue : Nat → List Char → Option (Json × List Char)
  | 0, _ => none
  | _ + 1, [] => none
  | fuel + 1, c :: rest =>
    if c = '"' then
      match parseStringRest (rest.length + 1) rest with
      | some (cs, rem) => some (Json.str (String.mk cs), rem)
      | none => none
    else if c = '{' then
      match skipWs rest with
      | '}' :: rem => some (Json.obj [], rem)
      | l1 =>
        match parseMembers fuel l1 [] with
        | some (fields, rem) => some (Json.obj fields, rem)
        | none => none
    else if c = '[' then
      match skipWs rest with
      | ']' :: rem => some (Json.arr [], rem)
      | l1 =>
        match parseElements fuel l1 [] with
        | some (es, rem) => some (Json.arr es, rem)
        | none => none
    else if c = 't' then
      if rest.take 3 = ['r', 'u', 'e'] then some (Json.bool true, rest.drop 3) else none
    else if c = 'f' then
      if rest.take 4 = ['a', 'l', 's', 'e'] then some (Json.bool false, rest.drop 4) else none
    else if c = 'n' then
      if rest.take 3 = ['u', 'l', 'l'] then some (Json.null, rest.drop 3) else none
    else if c = '-' || isDigitChar c then parseNumber (c :: rest)
    else none

/-- Members of an object after the opening brace and leading whitespace,
when the object is not empty. -/
def parseMembers : Nat → List Char → List (String × Json) →
    Option (List (String × Json) × List Char)
  | 0, _, _ => none
  | fuel + 1, '"' :: rest, acc =>
    match parseStringRest (rest.length + 1) rest with
    | none => none
    | some (kcs, rem) =>
      match skipWs rem with
      | ':' :: rem2 =>
        match parseValue fuel (skipWs rem2) with
        | none => none
        | some (v, rem3) =>
          let acc2 := setField acc (String.mk kcs) v
          match skipWs rem3 with
          | ',' :: rem4 => parseMembers fuel (skipWs rem4) acc2
          | '}' :: rem4 => some (acc2, rem4)
          | _ => none
      | _ => none
  | _ + 1, _, _ => none

/-- Elements of a non-empty array after the opening bracket and leading
whitespace. -/
def parseElements : Nat → List Char → List Json → Option (List Json × List Char)
  | 0, _, _ => none
  | fuel + 1, l, acc =>
    match parseValue fuel l with
    | none => none
    | some (v, rem) =>
      match skipWs rem with
      | ',' :: rem2 => parseElements fuel (skipWs rem2) (acc ++ [v])
      | ']' :: rem2 => some (acc ++ [v], rem2)
      | _ => none

end

/-- JSON.parse on a whole string: a single value surrounded by optional
whitespace, `none` on any syntax error (modelling the thrown exception that
the caller catches). -/
def jsonParse (s : String) : Option Json :=
  match parseValue (4 * s.length + 16) (skipWs s.data) with
  | some (v, rem) => if (skipWs rem).isEmpty then some v else none
  | none => none

/-- The characters matched by the whitespace class of the host regular
expression engine; the same set is stripped by the trim method. -/
def isJsWhitespace (c : Char) : Bool :=
  c = ' ' || c = '\t' || c = '\n' || c = Char.ofNat 11 || c = Char.ofNat 12 ||
  c = Char.ofNat 13 || c = Char.ofNat 0xa0 || c = Char.ofNat 0x1680 ||
  (Char.ofNat 0x2000 ≤ c && c ≤ Char.ofNat 0x200a) ||
  c = Char.ofNat 0x2028 || c = Char.ofNat 0x2029 || c = Char.ofNat 0x202f ||
  c = Char.ofNat 0x205f || c = Char.ofNat 0x3000 || c = Char.ofNat 0xfeff

/-- Line terminators of the host language: the multiline caret matches after
one, the multiline dollar before one, and the dot never matches one. -/
def isLineTerminator (c : Char) : Bool :=
  c = '\n' || c = Char.ofNat 13 || c = Char.ofNat 0x2028 || c = Char.ofNat 0x2029

/-- The trim method: strip the whitespace set from both ends. -/
def jsTrim (cs : List Char) : List Char :=
  ((cs.dropWhile isJsWhitespace).reverse.dropWhile isJsWhitespace).reverse

/-- Backtracking of the greedy one-or-more whitespace quantifier after the
hash: with n whitespace characters consumed, the captured dot-plus is the
maximal run of non-line-terminator characters that follows and must be
non-empty (the dollar then holds by maximality); on failure retry with one
fewer whitespace character, never reaching zero. -/
def tryCapture (rest : List Char) : Nat → Option (List Char)
  | 0 => none
  | n + 1 =>
    match (rest.drop (n + 1)).takeWhile (fun d => !isLineTerminator d) with
    | [] => tryCapture rest n
    | c :: cs => some (c :: cs)

/-- Attempt of the regular expression body after a hash at a caret position:
the whitespace quantifier starts from its greedy maximum. -/
def matchFromHash (rest : List Char) : Option (List Char) :=
  tryCapture rest (rest.takeWhile isJsWhitespace).length

/-- Left-to-right scan of the subject for the first successful match of the
anchored pattern; `atLineStart` records whether the current position is the
start of input or follows a line terminator, the positions where the
multiline caret matches. -/
def scanLines : List Char → Bool → Option (List Char)
  | [], _ => none
  | c :: rest, atLineStart =>
    if atLineStart && c = '#' then
      match matchFromHash rest with
      | some cap => some cap
      | none => scanLines rest (isLineTerminator c)
    else scanLines rest (isLineTerminator c)

/-- Extract title from markdown content: the first multiline match of a
hash, whitespace, and a captured line remainder; the captured group is
trimmed. Returns `none` when the pattern matches nowhere. -/
def extractMarkdownTitle (content : String) : Option String :=
  (scanLines content.data true).map (fun cap => String.mk (jsTrim cap))

/-- Truthiness of a host value originating from JSON. -/
def jsTruthy : Json → Bool
  | Json.null => false
  | Json.bool b => b
  | Json.num m _ => m != 0
  | Json.str s => s != ""
  | Json.arr _ => true
  | Json.obj _ => true

/-- Property lookup on an object: the value at the first matching key. -/
def lookupField : List (String × Json) → String → Option Json
  | [], _ => none
  | (k, v) :: rest, key => if k = key then some v else lookupField rest key

/-- Truthiness of a property access on an object: a missing property reads
as undefined, which is falsy. -/
def fieldTruthy (fields : List (String × Json)) (key : String) : Bool :=
  match lookupField fields key with
  | some v => jsTruthy v
  | none => false

/-- The test performed on the parsed JSON: a non-null object (the only
parse result with properties) whose type property holds a string. -/
def typeFieldIsString (fields : List (String × Json)) : Bool :=
  match lookupField fields "$type" with
  | some (Json.str _) => true
  | _ => false

/-- The visibility field of the special-cased blog record: preserved from
the existing record when present, not overridden, and truthy; the default
otherwise. -/
def visibilityValue (existingRecord : Option (List (String × Json)))
    (forceFields : Bool) : Json :=
  match existingRecord with
  | some prev =>
    if !forceFields && fieldTruthy prev "visibility" then
      (lookupField prev "visibility").getD Json.null
    else Json.str "public"
  | none => Json.str "public"

/-- The value assigned to the title field when it comes from the extracted
heading: assigned only when the extraction result is truthy (present and
non-empty after trimming). -/
def extractedValue : Option String → Option Json
  | some t => if t = "" then none else some (Json.str t)
  | none => none

/-- The title field of the special-cased blog record: preserved from the
existing record when present, not overridden, and truthy; otherwise the
extracted heading when truthy; otherwise absent. -/
def titleValue (existingRecord : Option (List (String × Json)))
    (forceFields : Bool) (extractedTitle : Option String) : Option Json :=
  match existingRecord with
  | some prev =>
    if !forceFields && fieldTruthy prev "title" then
      some ((lookupField prev "title").getD Json.null)
    else extractedValue extractedTitle
  | none => extractedValue extractedTitle

/-- The part of the library buildRecord after the JSON pass-through attempt
has failed: the special case for the blog collection, then the generic
fallback. Field insertion order follows the assignments in the source. -/
def buildRecordRest (collection : String) (content : String)
    (existingRecord : Option (List (String × Json))) (forceFields : Bool)
    (now : String) : List (String × Json) :=
  if collection = "com.whtwnd.blog.entry" then
    let base := [("$type", Json.str collection), ("content", Json.str content),
                 ("createdAt", Json.str now)]
    let withVisibility := base ++ [("visibility", visibilityValue existingRecord forceFields)]
    match titleValue existingRecord forceFields (extractMarkdownTitle content) with
    | some t => withVisibility ++ [("title", t)]
    | none => withVisibility
  else
    [("$type", Json.str collection), ("content", Json.str content),
     ("createdAt", Json.str now)]

/-- The four-argument library buildRecord. The clock read is the explicit
argument `now` (the ISO string that new Date().toISOString() returned). -/
def buildRecord (collection : String) (content : String)
    (existingRecord : Option (List (String × Json))) (forceFields : Bool)
    (now : String) : List (String × Json) :=
  match jsonParse content with
  | some (Json.obj fields) =>
    if typeFieldIsString fields then fields
    else buildRecordRest collection content existingRecord forceFields now
  | _ => buildRecordRest collection content existingRecord forceFields now

/-- Whether the content takes the structured pass-through path: it parses as
JSON to a non-null object whose type field is a string. -/
def takesPassthrough (content : String) : Bool :=
  match jsonParse content with
  | some (Json.obj fields) => typeFieldIsString fields
  | _ => false

namespace Script

/-- The two-argument buildRecord of the minimal script: JSON pass-through,
then the generic structure; no special-cased collection. -/
def buildRecord (collection : String) (content : String) (now : String) :
    List (String × Json) :=
  match jsonParse content with
  | some (Json.obj fields) =>
    if typeFieldIsString fields then fields
    else
      [("$type", Json.str collection), ("content", Json.str content),
       ("createdAt", Json.str now)]
  | _ =>
    [("$type", Json.str collection), ("content", Json.str content),
     ("createdAt", Json.str now)]

end Script

/-- Helper: when the content does not take the structured pass-through path,
the build falls through to the collection-specific handling. -/
theorem buildRecord_eq_rest (collection content : String)
    (existingRecord : Option (List (String × Json))) (forceFields : Bool) (now : String)
    (h : takesPassthrough content = false) :
    buildRecord collection content existingRecord forceFields now =
      buildRecordRest collection content existingRecord forceFields now := by
  unfold takesPassthrough at h
  unfold buildRecord
  cases hj : jsonParse content with
  | none => rfl
  | some v =>
    rw [hj] at h
    cases v with
    | null => rfl
    | bool b => rfl
    | num m e => rfl
    | str s => rfl
    | arr es => rfl
    | obj fields =>
      have h' : typeFieldIsString fields = false := h
      simp [h']

/-- C1: content that parses as JSON to a non-null object with a string-valued
type field is returned unchanged by buildRecord — no field added or removed,
no timestamp stamped — for every collection, previous record and override
flag. -/
theorem buildRecord_passthrough (collection content : String)
    (existingRecord : Option (List (String × Json))) (forceFields : Bool) (now : String)
    (fields : List (String × Json))
    (hparse : jsonParse content = some (Json.obj fields))
    (htype : typeFieldIsString fields = true) :
    buildRecord collection content existingRecord forceFields now = fields := by
  unfold buildRecord
  rw [hparse]
  simp [htype]

/-- Witness for C1 at a concrete structured input: the parsed object comes
back verbatim even for the blog collection, with a previous record supplied
and override requested. -/
theorem buildRecord_passthrough_witness :
    buildRecord "com.whtwnd.blog.entry" "\x7b\"$type\":\"com.custom.x\",\"a\":1\x7d"
        (some [("title", Json.str "Old")]) true "2024-01-01T00:00:00.000Z" =
      [("$type", Json.str "com.custom.x"), ("a", Json.num 1 0)] :=
  buildRecord_passthrough _ _ _ _ _ _ rfl rfl

/-- C2: for non-structured content on the blog collection with a previous
record holding truthy title and visibility and override off, both fields are
copied from the previous record, ignoring any heading in the new content. -/
theorem buildRecord_blog_preserves (content : String) (prev : List (String × Json))
    (vv tv : Json) (now : String)
    (hpass : takesPassthrough content = false)
    (hvis : lookupField prev "visibility" = some vv) (hvt : jsTruthy vv = true)
    (htitle : lookupField prev "title" = some tv) (htt : jsTruthy tv = true) :
    buildRecord "com.whtwnd.blog.entry" content (some prev) false now =
      [("$type", Json.str "com.whtwnd.blog.entry"), ("content", Json.str content),
       ("createdAt", Json.str now), ("visibility", vv), ("title", tv)] := by
  rw [buildRecord_eq_rest _ _ _ _ _ hpass]
  unfold buildRecordRest
  simp [visibilityValue, titleValue, fieldTruthy, hvis, hvt, htitle, htt]

/-- Witness for C2 at the concrete scenario of the spec: previous title and
visibility win over the fresh heading. -/
theorem buildRecord_blog_preserves_witness :
    buildRecord "com.whtwnd.blog.entry" "# New\n\nBody"
        (some [("title", Json.str "Old Custom"), ("visibility", Json.str "author")])
        false "2024-01-01T00:00:00.000Z" =
      [("$type", Json.str "com.whtwnd.blog.entry"), ("content", Json.str "# New\n\nBody"),
       ("createdAt", Json.str "2024-01-01T00:00:00.000Z"),
       ("visibility", Json.str "author"), ("title", Json.str "Old Custom")] :=
  buildRecord_blog_preserves _ _ _ _ _ rfl rfl rfl rfl rfl

/-- C3: for non-structured content on the blog collection with override on,
visibility resets to the default and the title is re-derived from the new
content (absent when nothing non-empty is extracted); the previous record is
never consulted. -/
theorem buildRecord_blog_override (content : String)
    (existingRecord : Option (List (String × Json))) (now : String)
    (hpass : takesPassthrough content = false) :
    buildRecord "com.whtwnd.blog.entry" content existingRecord true now =
      [("$type", Json.str "com.whtwnd.blog.entry"), ("content", Json.str content),
       ("createdAt", Json.str now), ("visibility", Json.str "public")] ++
      (match extractMarkdownTitle content with
       | some t => if t = "" then [] else [("title", Json.str t)]
       | none => []) := by
  rw [buildRecord_eq_rest _ _ _ _ _ hpass]
  unfold buildRecordRest
  have hv : visibilityValue existingRecord true = Json.str "public" := by
    cases existingRecord <;> simp [visibilityValue]
  have ht : titleValue existingRecord true (extractMarkdownTitle content) =
      extractedValue (extractMarkdownTitle content) := by
    cases existingRecord <;> simp [titleValue]
  rw [hv, ht]
  cases hx : extractMarkdownTitle content with
  | none => simp [extractedValue]
  | some t =>
    by_cases ht0 : t = "" <;> simp [extractedValue, ht0]

/-- Witness for C3 at the concrete scenario of the spec: override discards
the previous title and visibility. -/
theorem buildRecord_blog_override_witness :
    buildRecord "com.whtwnd.blog.entry" "# New\n\nBody"
        (some [("title", Json.str "Old Custom"), ("visibility", Json.str "author")])
        true "2024-01-01T00:00:00.000Z" =
      [("$type", Json.str "com.whtwnd.blog.entry"), ("content", Json.str "# New\n\nBody"),
       ("createdAt", Json.str "2024-01-01T00:00:00.000Z"),
       ("visibility", Json.str "public")] ++
      (match extractMarkdownTitle "# New\n\nBody" with
       | some t => if t = "" then [] else [("title", Json.str t)]
       | none => []) :=
  buildRecord_blog_override _ _ _ rfl

/-- C5: for any collection other than the blog one and non-structured
content, the record has exactly the three generic fields, whatever the
previous record and override flag. -/
theorem buildRecord_generic (collection content : String)
    (existingRecord : Option (List (String × Json))) (forceFields : Bool) (now : String)
    (hcoll : collection ≠ "com.whtwnd.blog.entry")
    (hpass : takesPassthrough content = false) :
    buildRecord collection content existingRecord forceFields now =
      [("$type", Json.str collection), ("content", Json.str content),
       ("createdAt", Json.str now)] := by
  rw [buildRecord_eq_rest _ _ _ _ _ hpass]
  unfold buildRecordRest
  simp [hcoll]

/-- Witness for C5 at the concrete scenario of the spec. -/
theorem buildRecord_generic_witness :
    buildRecord "com.example.note" "Hello world" (some [("title", Json.str "x")]) true
        "2024-01-01T00:00:00.000Z" =
      [("$type", Json.str "com.example.note"), ("content", Json.str "Hello world"),
       ("createdAt", Json.str "2024-01-01T00:00:00.000Z")] :=
  buildRecord_generic _ _ _ _ _ (by decide) rfl

/-- C6: buildRecord is total — every input maps to a defined record (the
embedding is a total function, parsing returns an optional value instead of
throwing) — and a JSON parse failure falls through to the next rule. -/
theorem buildRecord_total (collection content : String)
    (existingRecord : Option (List (String × Json))) (forceFields : Bool) (now : String) :
    (∃ record, buildRecord collection content existingRecord forceFields now = record) ∧
    (jsonParse content = none →
      buildRecord collection content existingRecord forceFields now =
        buildRecordRest collection content existingRecord forceFields now) := by
  refine ⟨⟨_, rfl⟩, fun h => ?_⟩
  unfold buildRecord
  rw [h]

/-- Witness for C6 at a concrete malformed input: parsing fails and the
build falls through to the generic rule. -/
theorem buildRecord_total_witness :
    buildRecord "com.example.note" "\x7bnot json" none false "2024" =
      buildRecordRest "com.example.note" "\x7bnot json" none false "2024" :=
  (buildRecord_total "com.example.note" "\x7bnot json" none false "2024").2 rfl

/-- Helper: on the blog collection the fall-through record always reads its
visibility field back as the reconciled visibility value. -/
theorem lookup_vis_rest (content : String) (existingRecord : Option (List (String × Json)))
    (forceFields : Bool) (now : String) :
    lookupField (buildRecordRest "com.whtwnd.blog.entry" content existingRecord forceFields now)
      "visibility" = some (visibilityValue existingRecord forceFields) := by
  unfold buildRecordRest
  cases htv : titleValue existingRecord forceFields (extractMarkdownTitle content) <;>
    simp [lookupField]

/-- Helper: on the blog collection the fall-through record reads its title
field back as the reconciled title value (absent when that is none). -/
theorem lookup_title_rest (content : String) (existingRecord : Option (List (String × Json)))
    (forceFields : Bool) (now : String) :
    lookupField (buildRecordRest "com.whtwnd.blog.entry" content existingRecord forceFields now)
      "title" = titleValue existingRecord forceFields (extractMarkdownTitle content) := by
  unfold buildRecordRest
  cases htv : titleValue existingRecord forceFields (extractMarkdownTitle content) <;>
    simp [lookupField]

/-- Helper: inverting the extracted-title assignment. -/
theorem extractedValue_inv (ex : Option String) (t : Json)
    (h : extractedValue ex = some t) : ∃ s, ex = some s ∧ t = Json.str s := by
  cases ex with
  | none => cases h
  | some s =>
    by_cases h0 : s = ""
    · simp [extractedValue, h0] at h
    · simp only [extractedValue, if_neg h0, Option.some.injEq] at h
      exact ⟨s, rfl, h.symm⟩

/-- C7: on the blog collection with override off, a previous-record field
that is present but falsy is treated as absent — visibility falls back to
the default and the title comes from the fresh extraction. -/
theorem buildRecord_blog_falsy_prev (content : String) (prev : List (String × Json))
    (now : String) (hpass : takesPassthrough content = false) :
    (∀ vv, lookupField prev "visibility" = some vv → jsTruthy vv = false →
      lookupField (buildRecord "com.whtwnd.blog.entry" content (some prev) false now)
        "visibility" = some (Json.str "public")) ∧
    (∀ tv, lookupField prev "title" = some tv → jsTruthy tv = false →
      lookupField (buildRecord "com.whtwnd.blog.entry" content (some prev) false now)
        "title" = extractedValue (extractMarkdownTitle content)) := by
  rw [buildRecord_eq_rest _ _ _ _ _ hpass]
  constructor
  · intro vv hv hvf
    rw [lookup_vis_rest]
    simp [visibilityValue, fieldTruthy, hv, hvf]
  · intro tv ht htf
    rw [lookup_title_rest]
    simp [titleValue, fieldTruthy, ht, htf]

/-- Witness for C7: an empty-string visibility in the previous record is
replaced by the default. -/
theorem buildRecord_blog_falsy_prev_witness :
    lookupField (buildRecord "com.whtwnd.blog.entry" "# Hi\nbody"
        (some [("visibility", Json.str ""), ("title", Json.str "")]) false "2024")
      "visibility" = some (Json.str "public") :=
  (buildRecord_blog_falsy_prev "# Hi\nbody" _ "2024" rfl).1 _ rfl rfl

/-- C8 counterexample: the claim quantifies over every invocation with the
blog collection, but a structured pass-through input bypasses the blog
handling, and the returned record then has no visibility field. -/
theorem buildRecord_blog_visibility_counterexample :
    lookupField (buildRecord "com.whtwnd.blog.entry"
        "\x7b\"$type\":\"com.whtwnd.blog.entry\"\x7d" none false "2024-01-01T00:00:00.000Z")
      "visibility" = none := rfl

/-- C8 (amended): on every invocation with the blog collection that does not
take the structured pass-through path, the record contains a visibility
field, and contains a title only when it is preserved from the previous
record or derived from the content — never invented. -/
theorem buildRecord_blog_invariants (content : String)
    (existingRecord : Option (List (String × Json))) (forceFields : Bool) (now : String)
    (hpass : takesPassthrough content = false) :
    (∃ v, lookupField (buildRecord "com.whtwnd.blog.entry" content existingRecord forceFields now)
        "visibility" = some v) ∧
    (∀ t, lookupField (buildRecord "com.whtwnd.blog.entry" content existingRecord forceFields now)
        "title" = some t →
      (∃ prev, existingRecord = some prev ∧ lookupField prev "title" = some t) ∨
      (∃ s, extractMarkdownTitle content = some s ∧ t = Json.str s)) := by
  rw [buildRecord_eq_rest _ _ _ _ _ hpass]
  constructor
  · exact ⟨_, lookup_vis_rest content existingRecord forceFields now⟩
  · intro t ht
    rw [lookup_title_rest] at ht
    cases hex : existingRecord with
    | none =>
      rw [hex] at ht
      simp only [titleValue] at ht
      rcases extractedValue_inv _ _ ht with ⟨s, hs, hts⟩
      exact Or.inr ⟨s, hs, hts⟩
    | some prev =>
      rw [hex] at ht
      simp only [titleValue] at ht
      by_cases hf : (!forceFields && fieldTruthy prev "title") = true
      · rw [if_pos hf] at ht
        have htr : fieldTruthy prev "title" = true := by
          have := hf
          simp only [Bool.and_eq_true] at this
          exact this.2
        unfold fieldTruthy at htr
        cases hl : lookupField prev "title" with
        | none => rw [hl] at htr; cases htr
        | some w =>
          rw [hl] at htr ht
          refine Or.inl ⟨prev, rfl, ?_⟩
          rw [hl]
          simpa using ht
      · rw [if_neg hf] at ht
        rcases extractedValue_inv _ _ ht with ⟨s, hs, hts⟩
        exact Or.inr ⟨s, hs, hts⟩

/-- Witness for C8 at a concrete non-structured input: the visibility field
is present. -/
theorem buildRecord_blog_invariants_witness :
    ∃ v, lookupField (buildRecord "com.whtwnd.blog.entry" "hello" none false "2024")
      "visibility" = some v :=
  (buildRecord_blog_invariants "hello" none false "2024" rfl).1

/-- C9: buildRecord is deterministic modulo the timestamp — two builds of
the same inputs at different clock readings agree on every field other than
createdAt (and a build is a pure function of its arguments including the
clock reading, so equal clocks give identical output). -/
theorem buildRecord_deterministic (collection content : String)
    (existingRecord : Option (List (String × Json))) (forceFields : Bool)
    (now1 now2 : String) (k : String) (hk : k ≠ "createdAt") :
    lookupField (buildRecord collection content existingRecord forceFields now1) k =
    lookupField (buildRecord collection content existingRecord forceFields now2) k := by
  have hrest : lookupField (buildRecordRest collection content existingRecord forceFields now1) k =
      lookupField (buildRecordRest collection content existingRecord forceFields now2) k := by
    unfold buildRecordRest
    have h3 : (("createdAt" : String) = k) = False :=
      eq_false (fun h => hk h.symm)
    by_cases hc : collection = "com.whtwnd.blog.entry"
    · simp only [hc, if_pos]
      cases htv : titleValue existingRecord forceFields (extractMarkdownTitle content) <;>
        simp [lookupField, h3]
    · simp [hc, lookupField, h3]
  unfold buildRecord
  cases hj : jsonParse content with
  | none => exact hrest
  | some v =>
    cases v with
    | null => exact hrest
    | bool b => exact hrest
    | num m e => exact hrest
    | str s => exact hrest
    | arr es => exact hrest
    | obj fields =>
      by_cases h : typeFieldIsString fields = true
      · simp [h]
      · simp only [h]
        simp at h
        simp [h]
        exact hrest

/-- Witness for C9: the content field agrees across two different clock
readings. -/
theorem buildRecord_deterministic_witness :
    lookupField (buildRecord "com.whtwnd.blog.entry" "# Hi\nbody" none false "AAAA") "content" =
    lookupField (buildRecord "com.whtwnd.blog.entry" "# Hi\nbody" none false "BBBB") "content" :=
  buildRecord_deterministic "com.whtwnd.blog.entry" "# Hi\nbody" none false
    "AAAA" "BBBB" "content" (by decide)

/-- C10: the two buildRecord versions of the repository agree for every
collection other than the blog one, on the pass-through and the generic
path alike, at equal clock readings. -/
theorem buildRecord_versions_agree (collection content : String)
    (existingRecord : Option (List (String × Json))) (forceFields : Bool) (now : String)
    (hcoll : collection ≠ "com.whtwnd.blog.entry") :
    buildRecord collection content existingRecord forceFields now =
      Script.buildRecord collection content now := by
  unfold buildRecord Script.buildRecord buildRecordRest
  cases hj : jsonParse content with
  | none => simp [hcoll]
  | some v =>
    cases v with
    | null => simp [hcoll]
    | bool b => simp [hcoll]
    | num m e => simp [hcoll]
    | str s => simp [hcoll]
    | arr es => simp [hcoll]
    | obj fields =>
      by_cases h : typeFieldIsString fields = true <;> simp [h, hcoll]

/-- Witness for C10 on a generic collection with plain text content. -/
theorem buildRecord_versions_agree_witness :
    buildRecord "com.example.note" "Hello world" (some [("title", Json.str "x")]) true "T" =
      Script.buildRecord "com.example.note" "Hello world" "T" :=
  buildRecord_versions_agree _ _ _ _ _ (by decide)

/-- Modelled from the claim under test (C4): the content split into lines at
line terminators, each line to be tested independently. -/
def splitLines : List Char → List (List Char)
  | [] => [[]]
  | c :: rest =>
    if isLineTerminator c then [] :: splitLines rest
    else
      match splitLines rest with
      | l :: ls => (c :: l) :: ls
      | [] => [[c]]

/-- Modelled from the claim under test (C4): a line yields a candidate when
it begins with a single hash followed by whitespace then text, all within the
line; the candidate is the trimmed text. -/
def lineTitleCandidate : List Char → Option String
  | [] => none
  | c :: rest =>
    if c = '#' then
      let ws := rest.takeWhile isJsWhitespace
      let text := rest.drop ws.length
      if ws.isEmpty || text.isEmpty then none
      else some (String.mk (jsTrim text))
    else none

/-- Modelled from the claim under test (C4): the candidate of the first
matching line, lines considered in order. -/
def claimedTitle (content : String) : Option String :=
  List.findSome? lineTitleCandidate (splitLines content.data)

/-- Viability of a whitespace-consumption count after the hash: at least one
character consumed, and a character that is not a line terminator follows. -/
def dropViable (rest : List Char) (r : Nat) : Bool :=
  decide (1 ≤ r) &&
    (match rest.drop r with
     | c :: _ => !isLineTerminator c
     | [] => false)

/-- Amended reading of C4: a consumption count is a viable split when it is
viable and only whitespace characters are consumed. -/
def viableSplit (rest : List Char) (r : Nat) : Bool :=
  dropViable rest r && decide (r ≤ (rest.takeWhile isJsWhitespace).length)

/-- Amended reading of C4: the greedy whitespace quantifier settles on the
largest viable split. -/
def bestSplit (rest : List Char) : Option Nat :=
  ((List.range (rest.length + 1)).filter (viableSplit rest)).getLast?

/-- Amended reading of C4 for the pattern body after the hash: the capture
is the run of non-line-terminator characters after the chosen split. -/
def amendedMatchFromHash (rest : List Char) : Option (List Char) :=
  match bestSplit rest with
  | some r => some ((rest.drop r).takeWhile (fun d => !isLineTerminator d))
  | none => none

/-- The suffixes of the content starting right after each line terminator,
in order of position. -/
def lineStartSuffixes : List Char → List (List Char)
  | [] => []
  | c :: rest =>
    if isLineTerminator c then rest :: lineStartSuffixes rest
    else lineStartSuffixes rest

/-- Amended reading of C4 for one caret position: the character there must
be a hash and the pattern body must match after it. -/
def startCandidate : List Char → Option (List Char)
  | c :: rest => if c = '#' then amendedMatchFromHash rest else none
  | [] => none

/-- Amended reading of C4: the trimmed capture at the first caret position
(start of content or right after a line terminator) where the pattern
matches. -/
def amendedTitle (content : String) : Option String :=
  (List.findSome? startCandidate (content.data :: lineStartSuffixes content.data)).map
    (fun cap => String.mk (jsTrim cap))

/-- C4 counterexample: on content consisting of a hash, a line break and
text, no line has the claimed shape (hash, whitespace, then text), yet the
extraction returns the text of the second line — the whitespace quantifier
of the pattern crosses the line break. -/
theorem extractMarkdownTitle_counterexample :
    extractMarkdownTitle "#\nfoo" = some "foo" ∧ claimedTitle "#\nfoo" = none :=
  ⟨rfl, rfl⟩

theorem length_takeWhile_le' (p : Char → Bool) (l : List Char) :
    (l.takeWhile p).length ≤ l.length := by
  induction l with
  | nil => simp
  | cons c rest ih =>
    rw [List.takeWhile_cons]
    cases h : p c with
    | true =>
      simp only [if_true, List.length_cons]
      exact Nat.succ_le_succ ih
    | false =>
      simp only [if_false, List.length_nil, List.length_cons]
      exact Nat.le_succ_of_le (Nat.zero_le _)

theorem dropViable_succ (rest : List Char) (n : Nat) :
    dropViable rest (n + 1) =
      !((rest.drop (n + 1)).takeWhile (fun d => !isLineTerminator d)).isEmpty := by
  unfold dropViable
  have h1 : decide (1 ≤ n + 1) = true := by simp
  rw [h1, Bool.true_and]
  cases h : rest.drop (n + 1) with
  | nil => simp
  | cons c cs =>
    rw [List.takeWhile_cons]
    cases hc : isLineTerminator c with
    | true => simp [hc]
    | false => simp [hc]

/-- The backtracking loop computes the capture of the largest viable
whitespace consumption within its counter. -/
theorem tryCapture_eq_filter (rest : List Char) (n : Nat) :
    tryCapture rest n =
      match ((List.range (n + 1)).filter (dropViable rest)).getLast? with
      | some r => some ((rest.drop r).takeWhile (fun d => !isLineTerminator d))
      | none => none := by
  induction n with
  | zero =>
    have hz : (List.range 1).filter (dropViable rest) = [] := by
      simp [List.range_succ, dropViable]
    rw [hz]
    rfl
  | succ n ih =>
    rw [List.range_succ, List.filter_append]
    cases hd : dropViable rest (n + 1) with
    | true =>
      have hne := dropViable_succ rest n
      rw [hd] at hne
      cases hc : (rest.drop (n + 1)).takeWhile (fun d => !isLineTerminator d) with
      | nil => rw [hc] at hne; simp at hne
      | cons c cs =>
        rw [tryCapture, hc]
        have hfil : (List.filter (dropViable rest) [n + 1]) = [n + 1] := by
          simp [List.filter, hd]
        rw [hfil, List.getLast?_concat]
        exact (congrArg some hc).symm
    | false =>
      have hempty : (rest.drop (n + 1)).takeWhile (fun d => !isLineTerminator d) = [] := by
        have hne := dropViable_succ rest n
        rw [hd] at hne
        cases hl : (rest.drop (n + 1)).takeWhile (fun d => !isLineTerminator d) with
        | nil => rfl
        | cons c cs => rw [hl] at hne; simp at hne
      rw [tryCapture, hempty]
      have hfil : (List.filter (dropViable rest) [n + 1]) = [] := by
        simp [List.filter, hd]
      rw [hfil, List.append_nil, ih]

/-- Restricting the search range to the whitespace run and adding the
whitespace-only condition does not change the filtered splits. -/
theorem filter_viable_eq (rest : List Char) :
    (List.range ((rest.takeWhile isJsWhitespace).length + 1)).filter (dropViable rest) =
      (List.range (rest.length + 1)).filter (viableSplit rest) := by
  have hw : (rest.takeWhile isJsWhitespace).length ≤ rest.length :=
    length_takeWhile_le' _ _
  have hsplit : rest.length + 1 =
      ((rest.takeWhile isJsWhitespace).length + 1) +
        (rest.length - (rest.takeWhile isJsWhitespace).length) := by omega
  rw [hsplit,
    List.range_add ((rest.takeWhile isJsWhitespace).length + 1)
      (rest.length - (rest.takeWhile isJsWhitespace).length),
    List.filter_append]
  have h2 : (((List.range (rest.length - (rest.takeWhile isJsWhitespace).length)).map
      ((rest.takeWhile isJsWhitespace).length + 1 + ·)).filter (viableSplit rest)) = [] := by
    rw [List.filter_eq_nil_iff]
    intro a ha
    rcases List.mem_map.mp ha with ⟨i, _, rfl⟩
    unfold viableSplit
    simp only [Bool.and_eq_true, decide_eq_true_eq, not_and]
    intro _
    omega
  rw [h2, List.append_nil]
  apply List.filter_congr
  intro r hr
  rw [List.mem_range] at hr
  unfold viableSplit
  have hrle : decide (r ≤ (rest.takeWhile isJsWhitespace).length) = true := by
    simp
    omega
  rw [hrle, Bool.and_true]

/-- The pattern-body attempt equals its amended description. -/
theorem matchFromHash_eq_amended (rest : List Char) :
    matchFromHash rest = amendedMatchFromHash rest := by
  unfold matchFromHash amendedMatchFromHash bestSplit
  rw [tryCapture_eq_filter, filter_viable_eq]

theorem iteTrueEq {α : Sort _} (a b : α) : (if true = true then a else b) = a := rfl

theorem iteFalseEq {α : Sort _} (a b : α) : (if false = true then a else b) = b := rfl

/-- The single-pass scan equals the search over caret positions in order. -/
theorem scanLines_eq_findSome (l : List Char) :
    ∀ b : Bool, scanLines l b =
      List.findSome? startCandidate
        (if b then l :: lineStartSuffixes l else lineStartSuffixes l) := by
  induction l with
  | nil =>
    intro b
    cases b with
    | true => rw [iteTrueEq]; rfl
    | false => rw [iteFalseEq]; rfl
  | cons c rest ih =>
    intro b
    have hsuff : lineStartSuffixes (c :: rest) =
        if isLineTerminator c then rest :: lineStartSuffixes rest
        else lineStartSuffixes rest := rfl
    cases b with
    | false =>
      rw [iteFalseEq, scanLines]
      rw [if_neg (show ¬((false && decide (c = '#')) = true) from by simp)]
      rw [hsuff]
      cases hc : isLineTerminator c with
      | true =>
        rw [iteTrueEq]
        have := ih true
        rw [iteTrueEq] at this
        exact this
      | false =>
        rw [iteFalseEq]
        have := ih false
        rw [iteFalseEq] at this
        exact this
    | true =>
      rw [iteTrueEq, List.findSome?_cons]
      by_cases hc : c = '#'
      · subst hc
        rw [scanLines]
        rw [if_pos (show (true && decide (('#' : Char) = '#')) = true from rfl)]
        have hs : startCandidate ('#' :: rest) = matchFromHash rest := by
          rw [matchFromHash_eq_amended]
          rfl
        rw [hs, hsuff]
        have hterm : isLineTerminator '#' = false := rfl
        rw [hterm, iteFalseEq]
        cases hm : matchFromHash rest with
        | some cap => rfl
        | none =>
          have := ih false
          rw [iteFalseEq] at this
          exact this
      · rw [scanLines]
        rw [if_neg (show ¬((true && decide (c = '#')) = true) from by simp [hc])]
        have hs : startCandidate (c :: rest) = none := by
          simp [startCandidate, hc]
        rw [hs, hsuff]
        cases hlt : isLineTerminator c with
        | true =>
          rw [iteTrueEq]
          have := ih true
          rw [iteTrueEq] at this
          exact this
        | false =>
          rw [iteFalseEq]
          have := ih false
          rw [iteFalseEq] at this
          exact this

/-- C4 (amended): the title candidate is the trimmed capture of the first
line-start position where a hash is followed by one or more whitespace
characters — greedily as many as possible, and possibly spanning line
terminators — and then at least one character that is not a line
terminator; it is undefined when no line-start position admits such a
match. -/
theorem extractMarkdownTitle_amended (content : String) :
    extractMarkdownTitle content = amendedTitle content := by
  unfold extractMarkdownTitle amendedTitle
  rw [scanLines_eq_findSome content.data true, iteTrueEq]
